import Mathlib

/-!
# Verification of the `generate_kicks.py` kick-drum synthesizer

Shallow embedding of `src/generate_kicks.py` (function `generate_kick` and its
WAV-writing tail) over an arbitrary linear ordered field `α` with a floor
structure.  The transcendental functions (`np.sin`, `np.exp`), the constant
`np.pi` and the Gaussian noise draw `np.random.normal(0, 0.3, click_samples)`
are modelled as an explicit oracle record `Ops`, so every definition below is a
computable function of that oracle; theorems about the real program instantiate
the oracle with `Real.sin`, `Real.exp` and `Real.pi` while leaving the
(unseeded, hence arbitrary) noise stream universally quantified.

NumPy arrays are modelled index-wise: each intermediate array of the source is
a function of the sample index, and the buffer is materialised with
`List.ofFn`.  The two runtime failure points of the source are modelled by
`Option`: the in-place broadcast `kick[:click_samples] += click` fails when the
buffer is shorter than the click (unless the click has length ≤ 1, when NumPy
broadcasting degenerates), and `np.max` of an empty array fails.
-/

/-- Parameters of one `generate_kick(filename, duration, sample_rate, base_freq, decay)`
call (the filename is irrelevant to the synthesis). `sample_rate` is an integer
in the source; all other parameters are floats, modelled in the field `α`. -/
structure SynthParams (α : Type) where
  duration : α
  sample_rate : ℕ
  base_freq : α
  decay : α

/-- Oracle for the transcendental functions and the random noise of the source:
`sin`/`exp` stand for `np.sin`/`np.exp`, `pi` for `np.pi`, and `noise i` for the
`i`-th draw of `np.random.normal(0, 0.3, click_samples)`. -/
structure Ops (α : Type) where
  sin : α → α
  exp : α → α
  pi : α
  noise : ℕ → α

variable {α : Type} [LinearOrderedField α] [FloorRing α]

/-- Python `int(x)`: truncation toward zero. -/
def truncToInt (x : α) : ℤ := if x < 0 then ⌈x⌉ else ⌊x⌋

/-- NumPy `np.linspace(a, b, n)` at index `i`: `n` evenly spaced values from `a` to
`b` inclusive; for `n = 1` NumPy returns `[a]`, for `n = 0` the empty array
(the index function is then never used). -/
def linspaceAt (a b : α) (n i : ℕ) : α :=
  if n ≤ 1 then a else a + (b - a) * (i : α) / ((n - 1 : ℕ) : α)

/-- Source `int(sample_rate * duration)` — the buffer length `N` (source line
`t = np.linspace(0, duration, int(sample_rate * duration))`). -/
def nSamples (p : SynthParams α) : ℕ :=
  (truncToInt ((p.sample_rate : α) * p.duration)).toNat

/-- Source `click_samples = int(sample_rate * click_duration)` with `click_duration = 0.005`. -/
def clickSamples (p : SynthParams α) : ℕ :=
  (truncToInt ((p.sample_rate : α) * (0.005 : α))).toNat

/-- The time array `t` at index `i`: `np.linspace(0, duration, N)`. -/
def tAt (p : SynthParams α) (i : ℕ) : α :=
  linspaceAt 0 p.duration (nSamples p) i

/-- The frequency-sweep curve as a function of time `x`:
`base_freq * np.exp(-x / (duration * 0.1))` (source line 15). -/
def sweepFreq (ops : Ops α) (p : SynthParams α) (x : α) : α :=
  p.base_freq * ops.exp (-(x / (p.duration * (0.1 : α))))

/-- Source `freq = base_freq * np.exp(-t / (duration * 0.1))` at index `i`. -/
def freqAt (ops : Ops α) (p : SynthParams α) (i : ℕ) : α :=
  sweepFreq ops p (tAt p i)

/-- Source `phase = 2 * np.pi * np.cumsum(freq) / sample_rate` at index `i`
(`np.cumsum` at `i` is the sum of the first `i + 1` entries). -/
def phaseAt (ops : Ops α) (p : SynthParams α) (i : ℕ) : α :=
  2 * ops.pi * (∑ j ∈ Finset.range (i + 1), freqAt ops p j) / (p.sample_rate : α)

/-- Source `signal = np.sin(phase)` at index `i`. -/
def signalAt (ops : Ops α) (p : SynthParams α) (i : ℕ) : α :=
  ops.sin (phaseAt ops p i)

/-- Source `envelope = np.exp(-t / decay)` at index `i`. -/
def envelopeAt (ops : Ops α) (p : SynthParams α) (i : ℕ) : α :=
  ops.exp (-(tAt p i / p.decay))

/-- Source `kick = signal * envelope` at index `i` — the enveloped tone before the
click overlay. -/
def toneAt (ops : Ops α) (p : SynthParams α) (i : ℕ) : α :=
  signalAt ops p i * envelopeAt ops p i

/-- Source `click_envelope = np.exp(-np.linspace(0, 10, click_samples))` at index `i`. -/
def clickEnvAt (ops : Ops α) (p : SynthParams α) (i : ℕ) : α :=
  ops.exp (-(linspaceAt 0 10 (clickSamples p) i))

/-- Source `click = noise * click_envelope` at index `i`. -/
def clickAt (ops : Ops α) (p : SynthParams α) (i : ℕ) : α :=
  ops.noise i * clickEnvAt ops p i

/-- The buffer after `kick[:click_samples] += click`: the first `click_samples`
entries get the click added in place, the rest are the enveloped tone. -/
def kickClickedAt (ops : Ops α) (p : SynthParams α) (i : ℕ) : α :=
  if i < clickSamples p then toneAt ops p i + clickAt ops p i else toneAt ops p i

/-- The full pre-normalization buffer, materialised as a list of length `N`. -/
def preNormBuffer (ops : Ops α) (p : SynthParams α) : List α :=
  List.ofFn fun i : Fin (nSamples p) => kickClickedAt ops p i

/-- NumPy `np.max(np.abs(l))` for a non-empty `l` (all entries of `np.abs` are
nonnegative, so folding `max` from `0` gives the same value; on the empty list
this is `0`, where NumPy raises — `generate_kick` guards that case). -/
def maxAbsList (l : List α) : α := l.foldr (fun x m => max |x| m) 0

/-- Function `generate_kick` up to the normalized float buffer.  `none` models the two
ways the source raises: the broadcast failure of `kick[:click_samples] += click`
when `N < click_samples` (and the click is a genuine array, `click_samples > 1`,
since a length-≤1 operand broadcasts), and `np.max` of the empty buffer. -/
def generate_kick (ops : Ops α) (p : SynthParams α) : Option (List α) :=
  if nSamples p < clickSamples p ∧ 1 < clickSamples p then none
  else if nSamples p = 0 then none
  else some ((preNormBuffer ops p).map fun x => x / maxAbsList (preNormBuffer ops p))

/-- Wrap an integer into int16 two's-complement range, the effect of
`.astype(np.int16)` on an out-of-range integral value. -/
def toInt16 (n : ℤ) : ℤ := (n + 32768) % 65536 - 32768

/-- Source `(kick * 32767).astype(np.int16)` on one sample: scale, truncate toward
zero (C-cast semantics), wrap into int16. -/
def quantizeSample (x : α) : ℤ := toInt16 (truncToInt (x * 32767))

/-- A 16-bit little-endian encoding of `n` (the two data bytes `wave` writes
per frame via `tobytes()`), `n` taken modulo 2^16 in two's complement. -/
def int16BytesLE (s : ℤ) : List ℕ :=
  [(s % 65536).toNat % 256, (s % 65536).toNat / 256]

/-- The raw PCM data section: each sample as two little-endian bytes. -/
def pcmData : List ℤ → List ℕ
  | [] => []
  | s :: rest => int16BytesLE s ++ pcmData rest

/-- Little-endian 16-bit unsigned field of the WAV header. -/
def u16le (n : ℕ) : List ℕ := [n % 256, n / 256 % 256]

/-- Little-endian 32-bit unsigned field of the WAV header. -/
def u32le (n : ℕ) : List ℕ :=
  [n % 256, n / 256 % 256, n / 65536 % 256, n / 16777216 % 256]

/-- The 44-byte canonical WAV header the `wave` module emits for
`setnchannels(1)`, `setsampwidth(2)`, `setframerate(sampleRate)` and
`numSamples` written frames: RIFF chunk, fmt chunk (PCM, mono, 16-bit),
data chunk header. -/
def wavHeader (sampleRate numSamples : ℕ) : List ℕ :=
  [82, 73, 70, 70] ++ u32le (36 + 2 * numSamples) ++
  [87, 65, 86, 69] ++
  [102, 109, 116, 32] ++ u32le 16 ++ u16le 1 ++ u16le 1 ++
  u32le sampleRate ++ u32le (sampleRate * 2) ++ u16le 2 ++ u16le 16 ++
  [100, 97, 116, 97] ++ u32le (2 * numSamples)

/-- The bytes of the written WAV file: header then raw little-endian frames. -/
def writeWav (sampleRate : ℕ) (samples : List ℤ) : List ℕ :=
  wavHeader sampleRate samples.length ++ pcmData samples

/-- The whole `generate_kick` run: synthesize, quantize, serialize.  `none`
when the synthesis raises (no file is written in that case — the `wave.open`
block is only reached after the buffer is built). -/
def generate_kick_file (ops : Ops α) (p : SynthParams α) : Option (List ℕ) :=
  (generate_kick ops p).map fun out => writeWav p.sample_rate (out.map quantizeSample)

/-- Decode two little-endian bytes as a signed 16-bit integer. -/
def decodeInt16LE (lo hi : ℕ) : ℤ :=
  if lo + 256 * hi < 32768 then (lo + 256 * hi : ℕ) else (lo + 256 * hi : ℕ) - 65536

/-- Decode a 16-bit mono PCM data section back into its sample sequence. -/
def decodePCM : List ℕ → List ℤ
  | lo :: hi :: rest => decodeInt16LE lo hi :: decodePCM rest
  | _ => []

/-- The parameters of the first hard-coded invocation,
`generate_kick("…/kick1.wav", base_freq=55, decay=0.4)` with the default
`duration=0.5, sample_rate=44100`. -/
def kick1Params : SynthParams α :=
  { duration := 0.5, sample_rate := 44100, base_freq := 55, decay := 0.4 }

/-! ## General lemmas about the embedding -/

theorem truncToInt_of_nonneg {x : α} (h : 0 ≤ x) : truncToInt x = ⌊x⌋ := by
  unfold truncToInt
  rw [if_neg (not_lt.mpr h)]

theorem nSamples_kick1 : nSamples (kick1Params (α := α)) = 22050 := by
  unfold nSamples kick1Params
  rw [truncToInt_of_nonneg (by norm_num)]
  norm_num
  decide

theorem clickSamples_sr44100 {p : SynthParams α} (h : p.sample_rate = 44100) :
    clickSamples p = 220 := by
  unfold clickSamples
  rw [h, truncToInt_of_nonneg (by norm_num)]
  have h1 : ((44100 : ℕ) : α) * (0.005 : α) = 441 / 2 := by norm_num
  have h2 : ⌊(441 / 2 : α)⌋ = 220 := Int.floor_eq_iff.mpr (by norm_num)
  rw [h1, h2]
  decide

theorem clickSamples_kick1 : clickSamples (kick1Params (α := α)) = 220 :=
  clickSamples_sr44100 rfl

omit [FloorRing α] in
theorem maxAbsList_nonneg (l : List α) : 0 ≤ maxAbsList l := by
  induction l with
  | nil => exact le_refl 0
  | cons x xs ih => exact le_trans ih (le_max_right _ _)

omit [FloorRing α] in
theorem abs_le_maxAbsList {l : List α} {x : α} (h : x ∈ l) : |x| ≤ maxAbsList l := by
  induction l with
  | nil => cases h
  | cons y ys ih =>
    rcases List.mem_cons.mp h with rfl | h
    · exact le_max_left _ _
    · exact le_trans (ih h) (le_max_right _ _)

omit [FloorRing α] in
theorem maxAbsList_attained {l : List α} (h : l ≠ []) :
    ∃ x ∈ l, maxAbsList l = |x| := by
  induction l with
  | nil => exact absurd rfl h
  | cons y ys ih =>
    rcases ys.eq_nil_or_concat.imp_left id with rfl | _
    · refine ⟨y, List.mem_cons_self y [], ?_⟩
      show max |y| (maxAbsList []) = |y|
      show max |y| 0 = |y|
      rw [max_eq_left (abs_nonneg y)]
    · rcases ih (by rintro rfl; simp at *) with ⟨x, hx, hmax⟩
      by_cases hc : |y| ≤ maxAbsList ys
      · refine ⟨x, List.mem_cons_of_mem _ hx, ?_⟩
        show max |y| (maxAbsList ys) = |x|
        rw [max_eq_right hc, hmax]
      · refine ⟨y, List.mem_cons_self y ys, ?_⟩
        show max |y| (maxAbsList ys) = |y|
        rw [max_eq_left (le_of_not_le hc)]

omit [FloorRing α] in
theorem maxAbsList_pos {l : List α} {x : α} (hx : x ∈ l) (hne : x ≠ 0) :
    0 < maxAbsList l :=
  lt_of_lt_of_le (abs_pos.mpr hne) (abs_le_maxAbsList hx)

omit [FloorRing α] in
theorem maxAbsList_map_div (l : List α) {m : α} (hm : 0 < m) :
    maxAbsList (l.map fun x => x / m) = maxAbsList l / m := by
  induction l with
  | nil => simp [maxAbsList, zero_div]
  | cons y ys ih =>
    show max |y / m| (maxAbsList (ys.map fun x => x / m)) = max |y| (maxAbsList ys) / m
    rw [ih, abs_div, abs_of_pos hm, max_div_div_right hm.le]

/-- When the click fits (or degenerates) and the buffer is non-empty,
`generate_kick` succeeds and returns the normalized buffer. -/
theorem generate_kick_eq_some {ops : Ops α} {p : SynthParams α}
    (hfit : ¬(nSamples p < clickSamples p ∧ 1 < clickSamples p))
    (hne : nSamples p ≠ 0) :
    generate_kick ops p =
      some ((preNormBuffer ops p).map fun x => x / maxAbsList (preNormBuffer ops p)) := by
  unfold generate_kick
  rw [if_neg hfit, if_neg hne]

theorem generate_kick_inv {ops : Ops α} {p : SynthParams α} {out : List α}
    (h : generate_kick ops p = some out) :
    out = (preNormBuffer ops p).map fun x => x / maxAbsList (preNormBuffer ops p) := by
  unfold generate_kick at h
  by_cases hfit : nSamples p < clickSamples p ∧ 1 < clickSamples p
  · rw [if_pos hfit] at h; cases h
  · rw [if_neg hfit] at h
    by_cases hne : nSamples p = 0
    · rw [if_pos hne] at h; cases h
    · rw [if_neg hne] at h
      exact (Option.some_inj.mp h).symm

theorem preNormBuffer_length (ops : Ops α) (p : SynthParams α) :
    (preNormBuffer ops p).length = nSamples p := by
  unfold preNormBuffer
  exact List.length_ofFn _

theorem mem_preNormBuffer {ops : Ops α} {p : SynthParams α} {x : α} :
    x ∈ preNormBuffer ops p ↔ ∃ i : Fin (nSamples p), kickClickedAt ops p (i : ℕ) = x := by
  unfold preNormBuffer
  exact List.mem_ofFn _ x

/-- The time array, materialised: `t = np.linspace(0, duration, N)`. -/
def timeAxis (p : SynthParams α) : List α :=
  List.ofFn fun i : Fin (nSamples p) => tAt p i

theorem preNormBuffer_getElem (ops : Ops α) (p : SynthParams α) {i : ℕ}
    (h : i < nSamples p) :
    (preNormBuffer ops p)[i]? = some (kickClickedAt ops p i) := by
  unfold preNormBuffer
  rw [List.getElem?_ofFn]
  unfold List.ofFnNthVal
  rw [dif_pos h]

/-! ## Lemmas about quantization and the WAV container -/

theorem toInt16_eq_self {n : ℤ} (h1 : -32768 ≤ n) (h2 : n ≤ 32767) : toInt16 n = n := by
  unfold toInt16
  omega

theorem toInt16_range (n : ℤ) : -32768 ≤ toInt16 n ∧ toInt16 n ≤ 32767 := by
  unfold toInt16
  omega

theorem truncToInt_le {x : α} {c : ℤ} (h : x ≤ (c : α)) : truncToInt x ≤ c := by
  unfold truncToInt
  split
  · exact Int.ceil_le.mpr h
  · calc ⌊x⌋ ≤ ⌊(c : α)⌋ := Int.floor_le_floor h
    _ = c := Int.floor_intCast c

theorem le_truncToInt {x : α} {c : ℤ} (h : (c : α) ≤ x) : c ≤ truncToInt x := by
  unfold truncToInt
  split
  · calc c = ⌈(c : α)⌉ := (Int.ceil_intCast c).symm
    _ ≤ ⌈x⌉ := Int.ceil_le_ceil h
  · exact Int.le_floor.mpr h

theorem truncToInt_scaled_range {s : α} (h1 : -1 ≤ s) (h2 : s ≤ 1) :
    -32767 ≤ truncToInt (s * 32767) ∧ truncToInt (s * 32767) ≤ 32767 := by
  have hub : s * 32767 ≤ ((32767 : ℤ) : α) := by
    calc s * 32767 ≤ 1 * 32767 :=
      mul_le_mul_of_nonneg_right h2 (by norm_num)
    _ = ((32767 : ℤ) : α) := by norm_num
  have hlb : ((-32767 : ℤ) : α) ≤ s * 32767 := by
    calc ((-32767 : ℤ) : α) = (-1) * 32767 := by norm_num
    _ ≤ s * 32767 := mul_le_mul_of_nonneg_right h1 (by norm_num)
  exact ⟨le_truncToInt hlb, truncToInt_le hub⟩

/-- For a sample in `[-1, 1]` the int16 cast does not wrap: the emitted value
is exactly the truncation of `s * 32767`. -/
theorem quantizeSample_eq_trunc {s : α} (h1 : -1 ≤ s) (h2 : s ≤ 1) :
    quantizeSample s = truncToInt (s * 32767) := by
  obtain ⟨hl, hu⟩ := truncToInt_scaled_range h1 h2
  unfold quantizeSample
  exact toInt16_eq_self (by omega) hu

theorem quantizeSample_one : quantizeSample (1 : α) = 32767 := by
  rw [quantizeSample_eq_trunc (by norm_num) le_rfl, one_mul]
  rw [show ((32767 : α)) = ((32767 : ℤ) : α) by norm_num,
    truncToInt_of_nonneg (by positivity), Int.floor_intCast]

theorem quantizeSample_neg_one : quantizeSample (-1 : α) = -32767 := by
  rw [quantizeSample_eq_trunc le_rfl (by norm_num), neg_one_mul]
  unfold truncToInt
  rw [if_pos (by norm_num),
    show ((-32767 : α)) = ((-32767 : ℤ) : α) by norm_num, Int.ceil_intCast]

theorem wavHeader_length (sampleRate numSamples : ℕ) :
    (wavHeader sampleRate numSamples).length = 44 := rfl

theorem pcmData_length (samples : List ℤ) :
    (pcmData samples).length = 2 * samples.length := by
  induction samples with
  | nil => rfl
  | cons s rest ih =>
    show (int16BytesLE s ++ pcmData rest).length = 2 * (rest.length + 1)
    rw [List.length_append, ih]
    simp [int16BytesLE]
    ring

theorem writeWav_length (sampleRate : ℕ) (samples : List ℤ) :
    (writeWav sampleRate samples).length = 44 + 2 * samples.length := by
  unfold writeWav
  rw [List.length_append, wavHeader_length, pcmData_length]

theorem writeWav_data (sampleRate : ℕ) (samples : List ℤ) :
    (writeWav sampleRate samples).drop 44 = pcmData samples := by
  unfold writeWav
  calc (wavHeader sampleRate samples.length ++ pcmData samples).drop 44
      = (wavHeader sampleRate samples.length ++ pcmData samples).drop
          (wavHeader sampleRate samples.length).length := by
        rw [wavHeader_length]
    _ = pcmData samples := List.drop_left _ _

theorem decodePCM_pcmData {samples : List ℤ}
    (h : ∀ s ∈ samples, -32768 ≤ s ∧ s ≤ 32767) :
    decodePCM (pcmData samples) = samples := by
  induction samples with
  | nil => rfl
  | cons s rest ih =>
    obtain ⟨h1, h2⟩ := h s (List.mem_cons_self s rest)
    have hrest := ih fun x hx => h x (List.mem_cons_of_mem s hx)
    show decodeInt16LE ((s % 65536).toNat % 256) ((s % 65536).toNat / 256) ::
      decodePCM (pcmData rest) = s :: rest
    rw [hrest]
    congr 1
    unfold decodeInt16LE
    split <;> omega

/-! ## Normalization -/

/-- Core normalization fact: when the run succeeds and some pre-normalization
sample is non-zero, the pre-normalization peak is positive, the output is the
buffer divided by that peak, and the output's peak absolute value is exactly 1. -/
theorem normalized_out {ops : Ops α} {p : SynthParams α} {out : List α}
    (h : generate_kick ops p = some out)
    {i : Fin (nSamples p)} (hi : kickClickedAt ops p (i : ℕ) ≠ 0) :
    0 < maxAbsList (preNormBuffer ops p) ∧
      out = ((preNormBuffer ops p).map fun x => x / maxAbsList (preNormBuffer ops p)) ∧
      maxAbsList out = 1 := by
  have hmem : kickClickedAt ops p (i : ℕ) ∈ preNormBuffer ops p :=
    mem_preNormBuffer.mpr ⟨i, rfl⟩
  have hm : 0 < maxAbsList (preNormBuffer ops p) := maxAbsList_pos hmem hi
  have hout := generate_kick_inv h
  refine ⟨hm, hout, ?_⟩
  rw [hout, maxAbsList_map_div _ hm, div_self hm.ne']

/-- Every sample of the normalized output lies in `[-1, 1]`. -/
theorem normalized_abs_le {ops : Ops α} {p : SynthParams α} {out : List α}
    (h : generate_kick ops p = some out)
    {i : Fin (nSamples p)} (hi : kickClickedAt ops p (i : ℕ) ≠ 0) :
    ∀ x ∈ out, |x| ≤ 1 := by
  obtain ⟨hm, hout, -⟩ := normalized_out h hi
  intro x hx
  rw [hout] at hx
  obtain ⟨b, hb, rfl⟩ := List.mem_map.mp hx
  rw [abs_div, abs_of_pos hm]
  exact (div_le_one hm).mpr (abs_le_maxAbsList hb)

/-! ## Concrete inputs for witnesses

`opsConst` is a degenerate but perfectly legal oracle (`sin ≡ 0`, `exp ≡ 1`,
`pi = 3`, every noise draw `= 1`) under which the pipeline is small enough to
evaluate in closed form. -/

def opsConst : Ops ℚ := ⟨fun _ => 0, fun _ => 1, 3, fun _ => 1⟩

/-- A small valid parameter set: 200 Hz sample rate, 10 ms duration, so
`N = 2` samples and a 1-sample click. -/
def pA : SynthParams ℚ := ⟨0.01, 200, 1, 1⟩

theorem nSamples_pA : nSamples pA = 2 := by
  unfold nSamples pA
  rw [truncToInt_of_nonneg (by norm_num)]
  norm_num
  decide

theorem clickSamples_pA : clickSamples pA = 1 := by
  unfold clickSamples pA
  rw [truncToInt_of_nonneg (by norm_num)]
  norm_num

theorem toneAt_opsConst (p : SynthParams ℚ) (i : ℕ) : toneAt opsConst p i = 0 := by
  simp [toneAt, signalAt, opsConst]

theorem clickAt_opsConst (p : SynthParams ℚ) (i : ℕ) : clickAt opsConst p i = 1 := by
  simp [clickAt, clickEnvAt, opsConst]

theorem kickClickedAt_opsConst (p : SynthParams ℚ) (i : ℕ) :
    kickClickedAt opsConst p i = if i < clickSamples p then 1 else 0 := by
  unfold kickClickedAt
  rw [toneAt_opsConst, clickAt_opsConst]
  norm_num

theorem preNormBuffer_pA : preNormBuffer opsConst pA = [1, 0] := by
  have h : preNormBuffer opsConst pA =
      List.ofFn fun i : Fin 2 => kickClickedAt opsConst pA (i : ℕ) := by
    unfold preNormBuffer
    rw [nSamples_pA]
  rw [h]
  simp [List.ofFn_succ, kickClickedAt_opsConst, clickSamples_pA]

theorem generate_kick_pA : generate_kick opsConst pA = some [1, 0] := by
  rw [generate_kick_eq_some (by rw [nSamples_pA, clickSamples_pA]; omega)
    (by rw [nSamples_pA]; omega), preNormBuffer_pA]
  show some [1 / max |(1 : ℚ)| (max |(0 : ℚ)| 0), 0 / max |(1 : ℚ)| (max |(0 : ℚ)| 0)] = _
  norm_num

theorem kickClickedAt_pA_zero : kickClickedAt opsConst pA 0 ≠ 0 := by
  rw [kickClickedAt_opsConst, clickSamples_pA]
  norm_num

/-! ## Claims -/

/-- C1: for every `SynthParams` with strictly positive `durationSeconds`,
`sampleRate`, `baseFrequencyHz` and `decaySeconds` whose (pre-normalization)
buffer is not all zero, the buffer produced by the synthesizer after the
normalization step has peak absolute value exactly 1, and every sample is the
corresponding pre-normalization sample divided by the buffer's
pre-normalization peak absolute value. -/
theorem C1_normalization_peak_exact {ops : Ops α} {p : SynthParams α} {out : List α}
    (hdur : 0 < p.duration) (hsr : 0 < p.sample_rate)
    (hbase : 0 < p.base_freq) (hdecay : 0 < p.decay)
    (hrun : generate_kick ops p = some out)
    (hnz : ∃ i : Fin (nSamples p), kickClickedAt ops p (i : ℕ) ≠ 0) :
    maxAbsList out = 1 ∧
      out = ((preNormBuffer ops p).map fun x => x / maxAbsList (preNormBuffer ops p)) := by
  obtain ⟨i, hi⟩ := hnz
  obtain ⟨-, hout, hpeak⟩ := normalized_out hrun hi
  exact ⟨hpeak, hout⟩

theorem C1_normalization_peak_exact_witness :
    generate_kick opsConst pA = some [1, 0] ∧
      (maxAbsList [(1 : ℚ), 0] = 1 ∧
        [(1 : ℚ), 0] =
          ((preNormBuffer opsConst pA).map fun x =>
            x / maxAbsList (preNormBuffer opsConst pA))) :=
  ⟨generate_kick_pA,
    C1_normalization_peak_exact (by norm_num [pA]) (by norm_num [pA]) (by norm_num [pA])
      (by norm_num [pA])
      generate_kick_pA ⟨⟨0, by rw [nSamples_pA]; omega⟩, kickClickedAt_pA_zero⟩⟩

/-- C9: every quantized sample of a non-silent normalized buffer lies in
`[-32767, 32767]` — the value `-32768` is never produced — and the int16
conversion never wraps: it agrees with plain truncation of `x * 32767`. -/
theorem C9_quantized_range {ops : Ops α} {p : SynthParams α} {out : List α}
    (hrun : generate_kick ops p = some out)
    (hnz : ∃ i : Fin (nSamples p), kickClickedAt ops p (i : ℕ) ≠ 0) :
    ∀ x ∈ out, -32767 ≤ quantizeSample x ∧ quantizeSample x ≤ 32767 ∧
      quantizeSample x = truncToInt (x * 32767) := by
  obtain ⟨i, hi⟩ := hnz
  have habs := normalized_abs_le hrun hi
  intro x hx
  obtain ⟨h1, h2⟩ := abs_le.mp (habs x hx)
  have heq := quantizeSample_eq_trunc h1 h2
  obtain ⟨hl, hu⟩ := truncToInt_scaled_range h1 h2
  exact ⟨heq ▸ hl, heq ▸ hu, heq⟩

theorem tAt_zero (p : SynthParams α) : tAt p 0 = 0 := by
  unfold tAt linspaceAt
  split
  · rfl
  · simp

theorem tAt_spacing (p : SynthParams α) {i : ℕ} (h : i + 1 < nSamples p) :
    tAt p (i + 1) - tAt p i = p.duration / ((nSamples p - 1 : ℕ) : α) := by
  have h2 : ¬ nSamples p ≤ 1 := by omega
  have hc : ((nSamples p - 1 : ℕ) : α) ≠ 0 := Nat.cast_ne_zero.mpr (by omega)
  unfold tAt linspaceAt
  rw [if_neg h2, if_neg h2]
  field_simp
  ring

theorem tAt_last (p : SynthParams α) (h : 2 ≤ nSamples p) :
    tAt p (nSamples p - 1) = p.duration := by
  have h2 : ¬ nSamples p ≤ 1 := by omega
  have hc : ((nSamples p - 1 : ℕ) : α) ≠ 0 := Nat.cast_ne_zero.mpr (by omega)
  unfold tAt linspaceAt
  rw [if_neg h2, sub_zero, zero_add, mul_div_assoc, div_self hc, mul_one]

theorem timeAxis_length (p : SynthParams α) : (timeAxis p).length = nSamples p := by
  unfold timeAxis
  exact List.length_ofFn _

theorem timeAxis_of_one (p : SynthParams α) (h : nSamples p = 1) : timeAxis p = [0] := by
  have hx : timeAxis p = List.ofFn fun i : Fin 1 => tAt p (i : ℕ) := by
    unfold timeAxis
    rw [h]
  rw [hx]
  simp [List.ofFn_succ, tAt_zero]

/-- C2 (amended): when the run succeeds, the buffer has length
`N = trunc(sampleRate * durationSeconds)` and the time axis has `N` values
starting at `0` with constant spacing `duration / (N - 1)`; for `N ≥ 2` the
last value is `durationSeconds` (so the axis runs from 0 to the duration
inclusive), but for `N = 1` the single time value is `0` and the endpoint
`durationSeconds` is not reached. -/
theorem C2_length_and_time_axis {ops : Ops α} {p : SynthParams α} {out : List α}
    (hdur : 0 < p.duration) (hsr : 0 < p.sample_rate)
    (hrun : generate_kick ops p = some out) :
    out.length = nSamples p ∧
      (timeAxis p).length = nSamples p ∧
      tAt p 0 = 0 ∧
      (∀ i, i + 1 < nSamples p →
        tAt p (i + 1) - tAt p i = p.duration / ((nSamples p - 1 : ℕ) : α)) ∧
      (2 ≤ nSamples p → tAt p (nSamples p - 1) = p.duration) ∧
      (nSamples p = 1 → timeAxis p = [0]) := by
  refine ⟨?_, timeAxis_length p, tAt_zero p, fun i hi => tAt_spacing p hi,
    tAt_last p, timeAxis_of_one p⟩
  rw [generate_kick_inv hrun, List.length_map, preNormBuffer_length]

/-- A 3-sample run (duration 1 s at 3 Hz) used as the C2 witness input. -/
def pB : SynthParams ℚ := ⟨1, 3, 1, 1⟩

theorem nSamples_pB : nSamples pB = 3 := by
  unfold nSamples pB
  rw [truncToInt_of_nonneg (by norm_num)]
  norm_num
  decide

theorem clickSamples_pB : clickSamples pB = 0 := by
  unfold clickSamples pB
  rw [truncToInt_of_nonneg (by norm_num)]
  norm_num

theorem preNormBuffer_pB : preNormBuffer opsConst pB = [0, 0, 0] := by
  have h : preNormBuffer opsConst pB =
      List.ofFn fun i : Fin 3 => kickClickedAt opsConst pB (i : ℕ) := by
    unfold preNormBuffer
    rw [nSamples_pB]
  rw [h]
  simp [List.ofFn_succ, kickClickedAt_opsConst, clickSamples_pB]

theorem generate_kick_pB : generate_kick opsConst pB = some [0, 0, 0] := by
  rw [generate_kick_eq_some (by rw [nSamples_pB, clickSamples_pB]; omega)
    (by rw [nSamples_pB]; omega), preNormBuffer_pB]
  norm_num [maxAbsList]

theorem C2_length_and_time_axis_witness :
    generate_kick opsConst pB = some [0, 0, 0] ∧
      ([(0 : ℚ), 0, 0].length = nSamples pB ∧
        (timeAxis pB).length = nSamples pB ∧
        tAt pB 0 = 0 ∧
        (∀ i, i + 1 < nSamples pB →
          tAt pB (i + 1) - tAt pB i = pB.duration / ((nSamples pB - 1 : ℕ) : ℚ)) ∧
        (2 ≤ nSamples pB → tAt pB (nSamples pB - 1) = pB.duration) ∧
        (nSamples pB = 1 → timeAxis pB = [0])) :=
  ⟨generate_kick_pB,
    C2_length_and_time_axis (by norm_num [pB]) (by norm_num [pB]) generate_kick_pB⟩

/-- Parameters with `N = 1`: duration 0.6 s at a 2 Hz sample rate, a
counterexample to the claimed inclusive endpoint of the time axis. -/
def pC2 : SynthParams ℚ := ⟨0.6, 2, 1, 1⟩

theorem nSamples_pC2 : nSamples pC2 = 1 := by
  unfold nSamples pC2
  rw [truncToInt_of_nonneg (by norm_num)]
  have h1 : ((2 : ℕ) : ℚ) * (0.6 : ℚ) = 6 / 5 := by norm_num
  have h2 : ⌊(6 / 5 : ℚ)⌋ = 1 := Int.floor_eq_iff.mpr (by norm_num)
  rw [h1, h2]
  decide

theorem clickSamples_pC2 : clickSamples pC2 = 0 := by
  unfold clickSamples pC2
  rw [truncToInt_of_nonneg (by norm_num)]
  norm_num

/-- C2 counterexample: at `duration = 0.6 s`, `sampleRate = 2 Hz` (both
strictly positive) the run succeeds with a buffer of length `N = 1`, yet the
time axis is `[0]`: it does not contain the endpoint `durationSeconds`, so the
claimed "evenly spaced values from 0 to durationSeconds inclusive" is false. -/
theorem C2_time_axis_endpoint_cex :
    (generate_kick opsConst pC2).isSome = true ∧
      (timeAxis pC2).length = 1 ∧
      pC2.duration ∉ timeAxis pC2 := by
  refine ⟨?_, ?_, ?_⟩
  · rw [generate_kick_eq_some (by rw [nSamples_pC2, clickSamples_pC2]; omega)
      (by rw [nSamples_pC2]; omega)]
    rfl
  · rw [timeAxis_length, nSamples_pC2]
  · rw [timeAxis_of_one pC2 nSamples_pC2]
    show ¬ (0.6 : ℚ) ∈ [(0 : ℚ)]
    norm_num

/-- C3: the instantaneous sweep frequency at time `t` is
`baseFrequencyHz * exp(-t / (durationSeconds * 0.1))`; it equals
`baseFrequencyHz` at `t = 0` and is strictly decreasing in `t` (in particular
for `t > 0`).  Stated over `ℝ` with the oracle's `exp` fixed to the real
exponential; the other oracle components are irrelevant to the sweep. -/
theorem C3_sweep_frequency (sinf : ℝ → ℝ) (piv : ℝ) (noise : ℕ → ℝ)
    {p : SynthParams ℝ} (hdur : 0 < p.duration) (hbase : 0 < p.base_freq) :
    (∀ x : ℝ, sweepFreq ⟨sinf, Real.exp, piv, noise⟩ p x =
        p.base_freq * Real.exp (-(x / (p.duration * 0.1)))) ∧
      sweepFreq ⟨sinf, Real.exp, piv, noise⟩ p 0 = p.base_freq ∧
      ∀ t1 t2 : ℝ, t1 < t2 →
        sweepFreq ⟨sinf, Real.exp, piv, noise⟩ p t2 <
          sweepFreq ⟨sinf, Real.exp, piv, noise⟩ p t1 := by
  have hc : (0 : ℝ) < p.duration * 0.1 := by
    have : (0 : ℝ) < 0.1 := by norm_num
    positivity
  refine ⟨fun x => rfl, ?_, fun t1 t2 h => ?_⟩
  · show p.base_freq * Real.exp (-(0 / (p.duration * 0.1))) = p.base_freq
    rw [zero_div, neg_zero, Real.exp_zero, mul_one]
  · show p.base_freq * Real.exp (-(t2 / (p.duration * 0.1))) <
      p.base_freq * Real.exp (-(t1 / (p.duration * 0.1)))
    refine mul_lt_mul_of_pos_left (Real.exp_lt_exp.mpr ?_) hbase
    exact neg_lt_neg ((div_lt_div_iff_of_pos_right hc).mpr h)

theorem C3_sweep_frequency_witness :
    (∀ x : ℝ,
        sweepFreq ⟨Real.sin, Real.exp, Real.pi, fun _ => 0⟩ (kick1Params (α := ℝ)) x =
          (kick1Params (α := ℝ)).base_freq *
            Real.exp (-(x / ((kick1Params (α := ℝ)).duration * 0.1)))) ∧
      sweepFreq ⟨Real.sin, Real.exp, Real.pi, fun _ => 0⟩ (kick1Params (α := ℝ)) 0 =
        (kick1Params (α := ℝ)).base_freq ∧
      ∀ t1 t2 : ℝ, t1 < t2 →
        sweepFreq ⟨Real.sin, Real.exp, Real.pi, fun _ => 0⟩ (kick1Params (α := ℝ)) t2 <
          sweepFreq ⟨Real.sin, Real.exp, Real.pi, fun _ => 0⟩ (kick1Params (α := ℝ)) t1 :=
  C3_sweep_frequency Real.sin Real.pi (fun _ => 0)
    (by norm_num [kick1Params]) (by norm_num [kick1Params])

/-- C4: the PCM writer quantizes a sample `s ∈ [-1, 1]` by multiplying by
32767 and truncating toward zero — the emitted integer is exactly
`trunc(s * 32767)` (truncation, not rounding), with no int16 wraparound. -/
theorem C4_pcm_truncation {s : α} (h1 : -1 ≤ s) (h2 : s ≤ 1) :
    quantizeSample s = truncToInt (s * 32767) :=
  quantizeSample_eq_trunc h1 h2

theorem C4_pcm_truncation_witness :
    quantizeSample (-0.5 : ℚ) = truncToInt ((-0.5 : ℚ) * 32767) ∧
      quantizeSample (-0.5 : ℚ) = -16383 := by
  refine ⟨C4_pcm_truncation (by norm_num) (by norm_num), ?_⟩
  rw [quantizeSample_eq_trunc (by norm_num) (by norm_num)]
  unfold truncToInt
  rw [if_pos (by norm_num)]
  rw [show ((-0.5 : ℚ) * 32767) = -(32767 / 2) by norm_num]
  exact Int.ceil_eq_iff.mpr (by norm_num)

/-- C5: the transient-click stage is an in-place addition on exactly the first
`clickSampleCount` samples: below the cutoff the buffer holds
`tone * envelope + click` (additive overlay), and at every index at or beyond
`clickSampleCount` it holds its pre-click `tone * envelope` value unchanged. -/
theorem C5_click_overlay_frame (ops : Ops α) (p : SynthParams α) (i : ℕ)
    (h : i < nSamples p) :
    (clickSamples p ≤ i → (preNormBuffer ops p)[i]? = some (toneAt ops p i)) ∧
      (i < clickSamples p →
        (preNormBuffer ops p)[i]? = some (toneAt ops p i + clickAt ops p i)) := by
  have hofn := preNormBuffer_getElem ops p h
  constructor
  · intro hcs
    rw [hofn]
    unfold kickClickedAt
    rw [if_neg (not_lt.mpr hcs)]
  · intro hcs
    rw [hofn]
    unfold kickClickedAt
    rw [if_pos hcs]

theorem C5_click_overlay_frame_witness :
    (preNormBuffer opsConst pA)[1]? = some (toneAt opsConst pA 1) ∧
      (preNormBuffer opsConst pA)[0]? =
        some (toneAt opsConst pA 0 + clickAt opsConst pA 0) :=
  ⟨(C5_click_overlay_frame opsConst pA 1 (by rw [nSamples_pA]; omega)).1
      (by rw [clickSamples_pA]),
    (C5_click_overlay_frame opsConst pA 0 (by rw [nSamples_pA]; omega)).2
      (by rw [clickSamples_pA]; omega)⟩

theorem C9_quantized_range_witness :
    generate_kick opsConst pA = some [1, 0] ∧
      ∀ x ∈ [(1 : ℚ), 0], -32767 ≤ quantizeSample x ∧ quantizeSample x ≤ 32767 ∧
        quantizeSample x = truncToInt (x * 32767) :=
  ⟨generate_kick_pA,
    C9_quantized_range generate_kick_pA
      ⟨⟨0, by rw [nSamples_pA]; omega⟩, kickClickedAt_pA_zero⟩⟩

/-- C7 (amended): a zero duration yields `N = 0`, and the run then raises
before any file is written — either the click's in-place broadcast add fails
(when `clickSampleCount > 1`) or `np.max` of the empty buffer fails — so no
buffer and no file are produced. -/
theorem C7_zero_duration_raises (ops : Ops α) (p : SynthParams α)
    (hd : p.duration = 0) :
    generate_kick ops p = none ∧ generate_kick_file ops p = none := by
  have hN : nSamples p = 0 := by
    unfold nSamples
    rw [hd, mul_zero, truncToInt_of_nonneg le_rfl, Int.floor_zero]
    rfl
  have hg : generate_kick ops p = none := by
    unfold generate_kick
    by_cases hfit : nSamples p < clickSamples p ∧ 1 < clickSamples p
    · rw [if_pos hfit]
    · rw [if_neg hfit, if_pos hN]
  refine ⟨hg, ?_⟩
  unfold generate_kick_file
  rw [hg]
  rfl

theorem C7_zero_duration_raises_witness :
    generate_kick opsConst (⟨0, 5, 1, 1⟩ : SynthParams ℚ) = none ∧
      generate_kick_file opsConst (⟨0, 5, 1, 1⟩ : SynthParams ℚ) = none :=
  C7_zero_duration_raises opsConst ⟨0, 5, 1, 1⟩ rfl

/-- C7 counterexample: at `durationSeconds = 0` with the first invocation's
other parameters (`sampleRate = 44100`, `baseFrequencyHz = 55`,
`decaySeconds = 0.4`), the run does NOT complete: the click stage's broadcast
add fails on the empty buffer, `generate_kick` raises, and no file at all is
emitted — contradicting the claimed header-only file and absence of a crash. -/
theorem C7_zero_duration_cex :
    generate_kick opsConst (⟨0, 44100, 55, 0.4⟩ : SynthParams ℚ) = none ∧
      generate_kick_file opsConst (⟨0, 44100, 55, 0.4⟩ : SynthParams ℚ) = none := by
  have hN : nSamples (⟨0, 44100, 55, 0.4⟩ : SynthParams ℚ) = 0 := by
    unfold nSamples
    rw [truncToInt_of_nonneg (by norm_num)]
    norm_num
  have hC : clickSamples (⟨0, 44100, 55, 0.4⟩ : SynthParams ℚ) = 220 :=
    clickSamples_sr44100 rfl
  have hg : generate_kick opsConst (⟨0, 44100, 55, 0.4⟩ : SynthParams ℚ) = none := by
    unfold generate_kick
    rw [if_pos (by rw [hN, hC]; omega)]
  refine ⟨hg, ?_⟩
  unfold generate_kick_file
  rw [hg]
  rfl

/-- C10: when the buffer is non-empty but shorter than the 5 ms click
(`0 < N < clickSampleCount`), the click overlay's in-place add cannot
broadcast, `generate_kick` raises, and no file is written. -/
theorem C10_short_buffer_raises (ops : Ops α) (p : SynthParams α)
    (h0 : 0 < nSamples p) (hlt : nSamples p < clickSamples p) :
    generate_kick ops p = none ∧ generate_kick_file ops p = none := by
  have hg : generate_kick ops p = none := by
    unfold generate_kick
    rw [if_pos ⟨hlt, by omega⟩]
  refine ⟨hg, ?_⟩
  unfold generate_kick_file
  rw [hg]
  rfl

/-- Parameters for 1 ms at 44100 Hz: `N = 44` samples, shorter than the 220-sample click. -/
def pD : SynthParams ℚ := ⟨0.001, 44100, 55, 0.4⟩

theorem nSamples_pD : nSamples pD = 44 := by
  unfold nSamples pD
  rw [truncToInt_of_nonneg (by norm_num)]
  have h1 : ((44100 : ℕ) : ℚ) * (0.001 : ℚ) = 441 / 10 := by norm_num
  have h2 : ⌊(441 / 10 : ℚ)⌋ = 44 := Int.floor_eq_iff.mpr (by norm_num)
  rw [h1, h2]
  decide

theorem C10_short_buffer_raises_witness :
    generate_kick opsConst pD = none ∧ generate_kick_file opsConst pD = none :=
  C10_short_buffer_raises opsConst pD
    (by rw [nSamples_pD]; omega)
    (by rw [nSamples_pD, clickSamples_sr44100 rfl]; omega)

/-- C8: the container round-trip is lossless — decoding the data section of
the written file (44-byte header, mono, 16-bit little-endian frames at the
declared rate) reproduces the quantized integer sequence bit-exactly, for
every float buffer and sample rate. -/
theorem C8_container_roundtrip (xs : List α) (sr : ℕ) :
    decodePCM ((writeWav sr (xs.map quantizeSample)).drop 44) = xs.map quantizeSample := by
  rw [writeWav_data]
  apply decodePCM_pcmData
  intro s hs
  obtain ⟨x, hx, rfl⟩ := List.mem_map.mp hs
  exact toInt16_range (truncToInt (x * 32767))

/-- C6 (amended): for the first invocation's parameters (`base_freq = 55`,
`decay = 0.4`, `duration = 0.5`, `sample_rate = 44100`) and any noise draw
that leaves the pre-normalization buffer not identically zero, the buffer has
length 22050, the file is `44 + 2 * 22050 = 44144` bytes, and at least one
frame holds the peak quantized value `32767` or `-32767` (one frame per
pre-normalization peak position; "exactly one" is not guaranteed, see the
counterexample). -/
theorem C6_kick1_file (ops : Ops α)
    (hnz : ∃ i : Fin (nSamples (kick1Params (α := α))),
      kickClickedAt ops (kick1Params (α := α)) (i : ℕ) ≠ 0) :
    ∃ out, generate_kick ops (kick1Params (α := α)) = some out ∧
      out.length = 22050 ∧
      generate_kick_file ops (kick1Params (α := α)) =
        some (writeWav 44100 (out.map quantizeSample)) ∧
      (writeWav 44100 (out.map quantizeSample)).length = 44144 ∧
      ∃ s ∈ out.map quantizeSample, s = 32767 ∨ s = -32767 := by
  have hfit : ¬(nSamples (kick1Params (α := α)) < clickSamples (kick1Params (α := α)) ∧
      1 < clickSamples (kick1Params (α := α))) := by
    rw [nSamples_kick1, clickSamples_kick1]
    omega
  have hne : nSamples (kick1Params (α := α)) ≠ 0 := by
    rw [nSamples_kick1]
    omega
  have hrun := @generate_kick_eq_some α _ _ ops (kick1Params (α := α)) hfit hne
  have hlen : ((preNormBuffer ops (kick1Params (α := α))).map fun x =>
      x / maxAbsList (preNormBuffer ops (kick1Params (α := α)))).length = 22050 := by
    rw [List.length_map, preNormBuffer_length, nSamples_kick1]
  refine ⟨_, hrun, hlen, ?_, ?_, ?_⟩
  · unfold generate_kick_file
    rw [hrun]
    rfl
  · rw [writeWav_length, List.length_map, hlen]
  · obtain ⟨i, hi⟩ := hnz
    obtain ⟨hm, -, -⟩ := normalized_out hrun hi
    have hbne : preNormBuffer ops (kick1Params (α := α)) ≠ [] := by
      apply List.length_pos.mp
      rw [preNormBuffer_length, nSamples_kick1]
      omega
    obtain ⟨x, hxmem, hxeq⟩ := maxAbsList_attained hbne
    have hmemout : x / maxAbsList (preNormBuffer ops (kick1Params (α := α))) ∈
        ((preNormBuffer ops (kick1Params (α := α))).map fun y =>
          y / maxAbsList (preNormBuffer ops (kick1Params (α := α)))) :=
      List.mem_map.mpr ⟨x, hxmem, rfl⟩
    have habs : |x / maxAbsList (preNormBuffer ops (kick1Params (α := α)))| = 1 := by
      rw [abs_div, ← hxeq, abs_of_pos hm, div_self hm.ne']
    refine ⟨quantizeSample (x / maxAbsList (preNormBuffer ops (kick1Params (α := α)))),
      List.mem_map.mpr ⟨_, hmemout, rfl⟩, ?_⟩
    rcases (abs_eq (by norm_num : (0 : α) ≤ 1)).mp habs with h1 | h1
    · rw [h1, quantizeSample_one]
      exact Or.inl rfl
    · rw [h1, quantizeSample_neg_one]
      exact Or.inr rfl

theorem kickClickedAt_kick1_zero :
    kickClickedAt opsConst (kick1Params (α := ℚ)) 0 ≠ 0 := by
  rw [kickClickedAt_opsConst, clickSamples_kick1]
  norm_num

theorem C6_kick1_file_witness :
    ∃ out, generate_kick opsConst (kick1Params (α := ℚ)) = some out ∧
      out.length = 22050 ∧
      generate_kick_file opsConst (kick1Params (α := ℚ)) =
        some (writeWav 44100 (out.map quantizeSample)) ∧
      (writeWav 44100 (out.map quantizeSample)).length = 44144 ∧
      ∃ s ∈ out.map quantizeSample, s = 32767 ∨ s = -32767 :=
  C6_kick1_file opsConst
    ⟨⟨0, by rw [nSamples_kick1]; omega⟩, kickClickedAt_kick1_zero⟩

/-! ## The C6 counterexample: a noise draw with a tied peak

The noise stream of the source is an unseeded Gaussian draw, so any real
sequence is a possible draw.  The draw below makes samples 0 and 1 of the
pre-normalization buffer both equal to 100 while every other sample stays in
`[-1, 1]`, so after normalization two distinct frames quantize to 32767 and
the claimed "exactly one frame at the peak" fails. -/

omit [FloorRing α] in
theorem maxAbsList_le {l : List α} {c : α} (hc : 0 ≤ c)
    (h : ∀ x ∈ l, |x| ≤ c) : maxAbsList l ≤ c := by
  induction l with
  | nil => exact hc
  | cons y ys ih =>
    show max |y| (maxAbsList ys) ≤ c
    exact max_le (h y (List.mem_cons_self y ys))
      (ih fun x hx => h x (List.mem_cons_of_mem y hx))

omit [FloorRing α] in
theorem maxAbsList_eq_of {l : List α} {c : α} (hc : 0 ≤ c)
    (hall : ∀ x ∈ l, |x| ≤ c) (hex : ∃ x ∈ l, |x| = c) : maxAbsList l = c := by
  obtain ⟨x, hx, hxe⟩ := hex
  exact le_antisymm (maxAbsList_le hc hall) (hxe ▸ abs_le_maxAbsList hx)

theorem tAt_nonneg (p : SynthParams α) (hd : 0 ≤ p.duration) (i : ℕ) :
    0 ≤ tAt p i := by
  unfold tAt linspaceAt
  split
  · exact le_refl 0
  · rw [sub_zero, zero_add]
    exact div_nonneg (mul_nonneg hd (Nat.cast_nonneg i)) (Nat.cast_nonneg _)

omit [FloorRing α] in
theorem linspaceAt_start (a b : α) (n : ℕ) : linspaceAt a b n 0 = a := by
  unfold linspaceAt
  split
  · rfl
  · simp

theorem clickEnvAt_real_start (piv : ℝ) (ν : ℕ → ℝ) (p : SynthParams ℝ) :
    clickEnvAt ⟨Real.sin, Real.exp, piv, ν⟩ p 0 = 1 := by
  show Real.exp (-(linspaceAt 0 10 (clickSamples p) 0)) = 1
  rw [linspaceAt_start, neg_zero, Real.exp_zero]

theorem clickEnvAt_real_ne_zero (piv : ℝ) (ν : ℕ → ℝ) (p : SynthParams ℝ) (i : ℕ) :
    clickEnvAt ⟨Real.sin, Real.exp, piv, ν⟩ p i ≠ 0 :=
  Real.exp_ne_zero _

theorem abs_toneAt_le_one (piv : ℝ) (ν : ℕ → ℝ) {p : SynthParams ℝ}
    (hd : 0 ≤ p.duration) (hdec : 0 < p.decay) (i : ℕ) :
    |toneAt ⟨Real.sin, Real.exp, piv, ν⟩ p i| ≤ 1 := by
  have ht : 0 ≤ tAt p i := tAt_nonneg p hd i
  show |Real.sin (phaseAt ⟨Real.sin, Real.exp, piv, ν⟩ p i) *
    Real.exp (-(tAt p i / p.decay))| ≤ 1
  rw [abs_mul]
  have h1 : |Real.sin (phaseAt ⟨Real.sin, Real.exp, piv, ν⟩ p i)| ≤ 1 :=
    abs_le.mpr ⟨Real.neg_one_le_sin _, Real.sin_le_one _⟩
  have h2 : |Real.exp (-(tAt p i / p.decay))| ≤ 1 := by
    rw [abs_of_pos (Real.exp_pos _)]
    exact Real.exp_le_one_iff.mpr (neg_nonpos.mpr (div_nonneg ht hdec.le))
  calc |Real.sin (phaseAt ⟨Real.sin, Real.exp, piv, ν⟩ p i)| *
      |Real.exp (-(tAt p i / p.decay))| ≤ 1 * 1 :=
      mul_le_mul h1 h2 (abs_nonneg _) (by norm_num)
    _ = 1 := by norm_num

/-- The enveloped tone never reads the noise stream: oracles differing only in
noise give the same tone. -/
theorem toneAt_noise_irrel (s e : α → α) (pv : α) (ν ν' : ℕ → α)
    (p : SynthParams α) (i : ℕ) :
    toneAt ⟨s, e, pv, ν⟩ p i = toneAt ⟨s, e, pv, ν'⟩ p i := rfl

/-- The click envelope never reads the noise stream either. -/
theorem clickEnvAt_noise_irrel (s e : α → α) (pv : α) (ν ν' : ℕ → α)
    (p : SynthParams α) (i : ℕ) :
    clickEnvAt ⟨s, e, pv, ν⟩ p i = clickEnvAt ⟨s, e, pv, ν'⟩ p i := rfl

/-- Any noise draw that puts `100 - tone` at samples 0 and 1 (compensating the
click envelope) and `0` from sample 2 on yields a run on the first
invocation's parameters whose frames 0 and 1 BOTH quantize to the peak value
32767. -/
theorem kick1_two_peak_frames (piv : ℝ) (ν : ℕ → ℝ)
    (hν0 : toneAt ⟨Real.sin, Real.exp, piv, ν⟩ (kick1Params (α := ℝ)) 0 + ν 0 = 100)
    (hν1 : toneAt ⟨Real.sin, Real.exp, piv, ν⟩ (kick1Params (α := ℝ)) 1 +
      ν 1 * clickEnvAt ⟨Real.sin, Real.exp, piv, ν⟩ (kick1Params (α := ℝ)) 1 = 100)
    (hνrest : ∀ i, 2 ≤ i → ν i = 0) :
    (((generate_kick ⟨Real.sin, Real.exp, piv, ν⟩ (kick1Params (α := ℝ))).getD []).map
        quantizeSample)[0]? = some 32767 ∧
      (((generate_kick ⟨Real.sin, Real.exp, piv, ν⟩ (kick1Params (α := ℝ))).getD []).map
        quantizeSample)[1]? = some 32767 := by
  have hN : nSamples (kick1Params (α := ℝ)) = 22050 := nSamples_kick1
  have hC : clickSamples (kick1Params (α := ℝ)) = 220 := clickSamples_kick1
  have h0 : kickClickedAt ⟨Real.sin, Real.exp, piv, ν⟩ (kick1Params (α := ℝ)) 0 = 100 := by
    unfold kickClickedAt
    rw [if_pos (by rw [hC]; omega)]
    show toneAt ⟨Real.sin, Real.exp, piv, ν⟩ (kick1Params (α := ℝ)) 0 +
      ν 0 * clickEnvAt ⟨Real.sin, Real.exp, piv, ν⟩ (kick1Params (α := ℝ)) 0 = 100
    rw [clickEnvAt_real_start, mul_one]
    exact hν0
  have h1 : kickClickedAt ⟨Real.sin, Real.exp, piv, ν⟩ (kick1Params (α := ℝ)) 1 = 100 := by
    unfold kickClickedAt
    rw [if_pos (by rw [hC]; omega)]
    exact hν1
  have hrest : ∀ i, 2 ≤ i →
      kickClickedAt ⟨Real.sin, Real.exp, piv, ν⟩ (kick1Params (α := ℝ)) i =
        toneAt ⟨Real.sin, Real.exp, piv, ν⟩ (kick1Params (α := ℝ)) i := by
    intro i hi
    unfold kickClickedAt
    split
    · show toneAt _ _ i + ν i * clickEnvAt _ _ i = toneAt _ _ i
      rw [hνrest i hi, zero_mul, add_zero]
    · rfl
  have htone : ∀ i, |toneAt ⟨Real.sin, Real.exp, piv, ν⟩ (kick1Params (α := ℝ)) i| ≤ 1 :=
    abs_toneAt_le_one piv ν (by norm_num [kick1Params]) (by norm_num [kick1Params])
  have hidx : ∀ i, |kickClickedAt ⟨Real.sin, Real.exp, piv, ν⟩ (kick1Params (α := ℝ)) i| ≤ 100 := by
    intro i
    rcases (by omega : i = 0 ∨ i = 1 ∨ 2 ≤ i) with rfl | rfl | hi
    · rw [h0]; norm_num
    · rw [h1]; norm_num
    · rw [hrest i hi]
      exact (htone i).trans (by norm_num)
  have hm : maxAbsList (preNormBuffer ⟨Real.sin, Real.exp, piv, ν⟩ (kick1Params (α := ℝ))) = 100 := by
    refine maxAbsList_eq_of (by norm_num) ?_ ?_
    · intro x hx
      obtain ⟨i, hieq⟩ := mem_preNormBuffer.mp hx
      rw [← hieq]
      exact hidx i
    · refine ⟨kickClickedAt ⟨Real.sin, Real.exp, piv, ν⟩ (kick1Params (α := ℝ)) 0,
        mem_preNormBuffer.mpr ⟨⟨0, by rw [hN]; omega⟩, rfl⟩, ?_⟩
      rw [h0]
      norm_num
  have hrun := @generate_kick_eq_some ℝ _ _ ⟨Real.sin, Real.exp, piv, ν⟩
    (kick1Params (α := ℝ)) (by rw [hN, hC]; omega) (by rw [hN]; omega)
  have hq : ∀ j, j < 2 →
      (((generate_kick ⟨Real.sin, Real.exp, piv, ν⟩ (kick1Params (α := ℝ))).getD []).map
        quantizeSample)[j]? = some 32767 := by
    intro j hj
    rw [hrun]
    show (((preNormBuffer ⟨Real.sin, Real.exp, piv, ν⟩ (kick1Params (α := ℝ))).map fun x =>
      x / maxAbsList (preNormBuffer ⟨Real.sin, Real.exp, piv, ν⟩ (kick1Params (α := ℝ)))).map
        quantizeSample)[j]? = some 32767
    rw [List.getElem?_map, List.getElem?_map,
      preNormBuffer_getElem _ _ (by rw [hN]; omega : j < nSamples (kick1Params (α := ℝ)))]
    show some (quantizeSample
      (kickClickedAt ⟨Real.sin, Real.exp, piv, ν⟩ (kick1Params (α := ℝ)) j /
        maxAbsList (preNormBuffer ⟨Real.sin, Real.exp, piv, ν⟩ (kick1Params (α := ℝ))))) =
      some 32767
    have hkc : kickClickedAt ⟨Real.sin, Real.exp, piv, ν⟩ (kick1Params (α := ℝ)) j = 100 := by
      rcases (by omega : j = 0 ∨ j = 1) with rfl | rfl
      · exact h0
      · exact h1
    rw [hm, hkc, show (100 : ℝ) / 100 = 1 by norm_num, quantizeSample_one]
  exact ⟨hq 0 (by omega), hq 1 (by omega)⟩

/-- C6 counterexample: the claim's "exactly one frame holds the peak quantized
sample value ±32767" fails for a possible (probability-zero but legal) noise
draw on the concrete input `base_freq = 55`, `decay = 0.4`, `duration = 0.5`,
`sample_rate = 44100`: the explicit draw below ties the pre-normalization peak
between samples 0 and 1, so frames 0 and 1 both hold 32767. -/
theorem C6_peak_frame_not_unique_cex :
    ¬ ∃! i : ℕ, ∃ s : ℤ,
      (((generate_kick
        ⟨Real.sin, Real.exp, Real.pi, fun n =>
          if n = 0 then
            100 - toneAt ⟨Real.sin, Real.exp, Real.pi, fun _ => 0⟩ (kick1Params (α := ℝ)) 0
          else if n = 1 then
            (100 - toneAt ⟨Real.sin, Real.exp, Real.pi, fun _ => 0⟩ (kick1Params (α := ℝ)) 1) /
              clickEnvAt ⟨Real.sin, Real.exp, Real.pi, fun _ => 0⟩ (kick1Params (α := ℝ)) 1
          else 0⟩
        (kick1Params (α := ℝ))).getD []).map quantizeSample)[i]? = some s ∧
        (s = 32767 ∨ s = -32767) := by
  intro hget
  have hpair := kick1_two_peak_frames Real.pi
    (fun n =>
      if n = 0 then
        100 - toneAt ⟨Real.sin, Real.exp, Real.pi, fun _ => 0⟩ (kick1Params (α := ℝ)) 0
      else if n = 1 then
        (100 - toneAt ⟨Real.sin, Real.exp, Real.pi, fun _ => 0⟩ (kick1Params (α := ℝ)) 1) /
          clickEnvAt ⟨Real.sin, Real.exp, Real.pi, fun _ => 0⟩ (kick1Params (α := ℝ)) 1
      else 0)
    (by
      rw [show (fun n : ℕ =>
          if n = 0 then
            100 - toneAt ⟨Real.sin, Real.exp, Real.pi, fun _ => 0⟩ (kick1Params (α := ℝ)) 0
          else if n = 1 then
            (100 - toneAt ⟨Real.sin, Real.exp, Real.pi, fun _ => 0⟩ (kick1Params (α := ℝ)) 1) /
              clickEnvAt ⟨Real.sin, Real.exp, Real.pi, fun _ => 0⟩ (kick1Params (α := ℝ)) 1
          else 0) 0 =
          100 - toneAt ⟨Real.sin, Real.exp, Real.pi, fun _ => 0⟩ (kick1Params (α := ℝ)) 0
        from rfl]
      rw [toneAt_noise_irrel Real.sin Real.exp Real.pi _ (fun _ => (0 : ℝ))]
      ring)
    (by
      rw [show (fun n : ℕ =>
          if n = 0 then
            100 - toneAt ⟨Real.sin, Real.exp, Real.pi, fun _ => 0⟩ (kick1Params (α := ℝ)) 0
          else if n = 1 then
            (100 - toneAt ⟨Real.sin, Real.exp, Real.pi, fun _ => 0⟩ (kick1Params (α := ℝ)) 1) /
              clickEnvAt ⟨Real.sin, Real.exp, Real.pi, fun _ => 0⟩ (kick1Params (α := ℝ)) 1
          else 0) 1 =
          (100 - toneAt ⟨Real.sin, Real.exp, Real.pi, fun _ => 0⟩ (kick1Params (α := ℝ)) 1) /
            clickEnvAt ⟨Real.sin, Real.exp, Real.pi, fun _ => 0⟩ (kick1Params (α := ℝ)) 1
        from rfl]
      rw [toneAt_noise_irrel Real.sin Real.exp Real.pi _ (fun _ => (0 : ℝ)),
        clickEnvAt_noise_irrel Real.sin Real.exp Real.pi
          (fun n : ℕ =>
            if n = 0 then
              100 - toneAt ⟨Real.sin, Real.exp, Real.pi, fun _ => 0⟩ (kick1Params (α := ℝ)) 0
            else if n = 1 then
              (100 - toneAt ⟨Real.sin, Real.exp, Real.pi, fun _ => 0⟩ (kick1Params (α := ℝ)) 1) /
                clickEnvAt ⟨Real.sin, Real.exp, Real.pi, fun _ => 0⟩ (kick1Params (α := ℝ)) 1
            else 0)
          (fun _ => (0 : ℝ)),
        div_mul_cancel₀ _ (clickEnvAt_real_ne_zero Real.pi (fun _ => (0 : ℝ))
          (kick1Params (α := ℝ)) 1)]
      ring)
    (fun i hi => by
      have hne0 : i ≠ 0 := by omega
      have hne1 : i ≠ 1 := by omega
      simp [hne0, hne1])
  obtain ⟨i, -, huniq⟩ := hget
  have h0 := huniq 0 ⟨32767, hpair.1, Or.inl rfl⟩
  have h1 := huniq 1 ⟨32767, hpair.2, Or.inl rfl⟩
  omega
